import Mathlib

/-!
Verification of the catalog store of the CLI library application (`main.py`).

The Python program keeps one JSON-shaped aggregate per library:
`{"current_id": int, "books": {str(id): {title, author, year, status}},
  "years": {year: [id, ...]}, "authors": {author: [id, ...]}}`.
We embed that aggregate as the structure `Catalog` below, with Python
dicts modelled as insertion-ordered association lists and Python's
`str(id)` modelled by the decimal printer `pyStr`.  Operations of class
`Library` (`add_book`, `delete_book`, `search_by_author_or_year`,
`search_by_title`, `search_by_id`, `change_book_status`) are translated
directly; operations that can raise an uncaught exception (`KeyError`
from `del d[k]` / `d[k]`, `ValueError` from `list.remove`) return
`Option`, with `none` marking the exception.  The interaction-shell
functions `add`, `delete` and `change_status` are translated as
`add_shell`, `delete_shell` and `change_status_shell`.
-/

/-! ### Association lists modelling Python dicts

Python dict keys are unique; assignment to an existing key updates the
value in place, assignment to a fresh key appends, and `del` removes
the key's (sole) entry. -/

def alLookup {α : Type} : List (String × α) → String → Option α
  | [], _ => none
  | (k, v) :: t, key => if k = key then some v else alLookup t key

def alSet {α : Type} : List (String × α) → String → α → List (String × α)
  | [], key, v => [(key, v)]
  | (k, w) :: t, key, v =>
      if k = key then (key, v) :: t else (k, w) :: alSet t key v

def alErase {α : Type} (l : List (String × α)) (key : String) : List (String × α) :=
  l.filter (fun p => p.1 != key)

theorem alLookup_alSet_self {α : Type} (l : List (String × α)) (k : String) (v : α) :
    alLookup (alSet l k v) k = some v := by
  induction l with
  | nil => simp [alSet, alLookup]
  | cons p t ih =>
    obtain ⟨k0, v0⟩ := p
    by_cases h0 : k0 = k
    · simp [alSet, h0, alLookup]
    · simp [alSet, h0, alLookup, ih]

theorem alLookup_alSet_ne {α : Type} (l : List (String × α)) (k k' : String) (v : α)
    (h : k' ≠ k) : alLookup (alSet l k v) k' = alLookup l k' := by
  induction l with
  | nil => simp [alSet, alLookup, Ne.symm h]
  | cons p t ih =>
    obtain ⟨k0, v0⟩ := p
    by_cases h0 : k0 = k
    · subst h0
      simp [alSet, alLookup, Ne.symm h]
    · by_cases h1 : k0 = k' <;> simp [alSet, alLookup, h0, h1, ih, h]

theorem alLookup_alErase_self {α : Type} (l : List (String × α)) (k : String) :
    alLookup (alErase l k) k = none := by
  induction l with
  | nil => simp [alErase, alLookup]
  | cons p t ih =>
    obtain ⟨k0, v0⟩ := p
    by_cases h0 : k0 = k
    · simpa [alErase, List.filter_cons, h0] using ih
    · simpa [alErase, List.filter_cons, h0, alLookup] using ih

theorem alLookup_alErase_ne {α : Type} (l : List (String × α)) (k k' : String)
    (h : k' ≠ k) : alLookup (alErase l k) k' = alLookup l k' := by
  induction l with
  | nil => simp [alErase, alLookup]
  | cons p t ih =>
    obtain ⟨k0, v0⟩ := p
    by_cases h0 : k0 = k
    · subst h0
      simpa [alErase, List.filter_cons, alLookup, Ne.symm h] using ih
    · by_cases h1 : k0 = k'
      · simp [alErase, List.filter_cons, alLookup, h0, h1, h]
      · simpa [alErase, List.filter_cons, alLookup, h0, h1, h] using ih

theorem mem_alSet {α : Type} {l : List (String × α)} {k : String} {v : α}
    {p : String × α} (h : p ∈ alSet l k v) : p = (k, v) ∨ p ∈ l := by
  induction l with
  | nil =>
    simp [alSet] at h
    simp [h]
  | cons q t ih =>
    obtain ⟨k0, v0⟩ := q
    by_cases h0 : k0 = k
    · simp [alSet, h0] at h
      rcases h with h | h
      · left; simp [h]
      · right; simp [h]
    · simp [alSet, h0] at h
      rcases h with h | h
      · right; simp [h]
      · rcases ih h with h' | h'
        · left; exact h'
        · right; simp [h']

theorem mem_alErase {α : Type} {l : List (String × α)} {k : String}
    {p : String × α} (h : p ∈ alErase l k) : p ∈ l ∧ p.1 ≠ k := by
  unfold alErase at h
  refine ⟨List.mem_of_mem_filter h, ?_⟩
  have h2 := List.of_mem_filter h
  simpa using h2

theorem alLookup_mem {α : Type} {l : List (String × α)} {k : String} {v : α}
    (h : alLookup l k = some v) : (k, v) ∈ l := by
  induction l with
  | nil => simp [alLookup] at h
  | cons q t ih =>
    obtain ⟨k0, v0⟩ := q
    by_cases h0 : k0 = k
    · subst h0
      simp [alLookup] at h
      simp [h]
    · simp [alLookup, h0] at h
      simp [ih h]

/-! ### Decimal rendering of ids

Python keys the `books` dict by `str(book.id)` where ids are
nonnegative integers.  `pyStr` renders a natural number in decimal
exactly as Python's `str`.  It recurses on a fuel argument so that it
reduces by evaluation in the kernel. -/

def natDigitsAux : Nat → Nat → List Char
  | 0, _ => []
  | fuel + 1, n =>
      if n < 10 then [Nat.digitChar n]
      else natDigitsAux fuel (n / 10) ++ [Nat.digitChar (n % 10)]

def pyStr (n : Nat) : String := String.mk (natDigitsAux (n + 1) n)

theorem natDigitsAux_fuel : ∀ fuel fuel' n : Nat, n < fuel → n < fuel' →
    natDigitsAux fuel n = natDigitsAux fuel' n := by
  intro fuel
  induction fuel with
  | zero => intro fuel' n h; omega
  | succ f ih =>
    intro fuel' n h h'
    cases fuel' with
    | zero => omega
    | succ f' =>
      by_cases h10 : n < 10
      · simp [natDigitsAux, h10]
      · have hd : n / 10 < n := Nat.div_lt_self (by omega) (by omega)
        have e := ih f' (n / 10) (by omega) (by omega)
        simp [natDigitsAux, h10, e]

theorem natDigitsAux_spec (n : Nat) :
    natDigitsAux (n + 1) n =
      if n < 10 then [Nat.digitChar n]
      else natDigitsAux (n / 10 + 1) (n / 10) ++ [Nat.digitChar (n % 10)] := by
  by_cases h10 : n < 10
  · simp [natDigitsAux, h10]
  · have hd : n / 10 < n := Nat.div_lt_self (by omega) (by omega)
    have e := natDigitsAux_fuel n (n / 10 + 1) (n / 10) (by omega) (by omega)
    simp [natDigitsAux, h10, e]

/-- Decimal value accumulator: models reading a digit string left to
right; fails on the first non-digit character. -/
def decVal (acc : Nat) : List Char → Option Nat
  | [] => some acc
  | ch :: t => if ch.isDigit then decVal (acc * 10 + (ch.toNat - 48)) t else none

theorem decVal_append (acc : Nat) (l1 l2 : List Char) :
    decVal acc (l1 ++ l2) =
      match decVal acc l1 with
      | some a => decVal a l2
      | none => none := by
  induction l1 generalizing acc with
  | nil => simp [decVal]
  | cons ch t ih =>
    by_cases h : ch.isDigit <;> simp [decVal, h, ih]

theorem digitChar_isDigit (d : Nat) (h : d < 10) : (Nat.digitChar d).isDigit = true := by
  interval_cases d <;> decide

theorem digitChar_toNat (d : Nat) (h : d < 10) : (Nat.digitChar d).toNat - 48 = d := by
  interval_cases d <;> decide

theorem decVal_digits (n : Nat) : ∀ acc : Nat,
    decVal acc (natDigitsAux (n + 1) n) =
      some (acc * 10 ^ (natDigitsAux (n + 1) n).length + n) := by
  induction n using Nat.strong_induction_on with
  | _ n ih =>
    intro acc
    rw [natDigitsAux_spec]
    by_cases h10 : n < 10
    · simp [h10, decVal, digitChar_isDigit n h10, digitChar_toNat n h10]
    · have hd : n / 10 < n := Nat.div_lt_self (by omega) (by omega)
      have hm : n % 10 < 10 := Nat.mod_lt _ (by omega)
      simp only [h10, if_false]
      rw [decVal_append, ih (n / 10) hd acc]
      simp only [decVal, digitChar_isDigit _ hm, if_true, digitChar_toNat _ hm,
        List.length_append, List.length_cons, List.length_nil]
      have key : ∀ P : Nat, (acc * P + n / 10) * 10 + n % 10 = acc * (P * 10) + n := by
        intro P
        calc (acc * P + n / 10) * 10 + n % 10
            = acc * (P * 10) + (10 * (n / 10) + n % 10) := by ring
          _ = acc * (P * 10) + n := by rw [Nat.div_add_mod]
      rw [key, pow_succ]

theorem decVal_pyStr (n : Nat) : decVal 0 (pyStr n).data = some n := by
  show decVal 0 (natDigitsAux (n + 1) n) = some n
  rw [decVal_digits n 0]
  simp

theorem pyStr_inj {m n : Nat} (h : pyStr m = pyStr n) : m = n := by
  have hm := decVal_pyStr m
  have hn := decVal_pyStr n
  rw [h] at hm
  rw [hm] at hn
  exact (Option.some.injEq _ _).mp hn

/-! ### Data model

`Book.__init__(title, author, year, id, status="Available")` and the
persisted per-book dict `{"title", "author", "year", "status"}`. -/

/-- One book as handed around by the shell (class `Book`). -/
structure Book where
  id : Nat
  title : String
  author : String
  year : String
  status : String
deriving DecidableEq, Repr

/-- The per-book dict stored under `lib_data["books"][str(id)]`. -/
structure BookRec where
  title : String
  author : String
  year : String
  status : String
deriving DecidableEq, Repr

/-- The `lib_data` aggregate of class `Library`:
`{"current_id": int, "books": {...}, "years": {...}, "authors": {...}}`. -/
structure Catalog where
  current_id : Nat
  books : List (String × BookRec)
  years : List (String × List Nat)
  authors : List (String × List Nat)
deriving DecidableEq, Repr

/-- The `start_data` written by `Library.__init__` for a fresh file. -/
def emptyCatalog : Catalog := ⟨0, [], [], []⟩

/-! ### Library operations (class `Library`) -/

/-- The index-update pattern `add_book` performs twice:
`if key in index: index[key].append(id) else: index[key] = [id]`. -/
def appendIndex (m : List (String × List Nat)) (k : String) (id : Nat) :
    List (String × List Nat) :=
  match alLookup m k with
  | some l => alSet m k (l ++ [id])
  | none => alSet m k [id]

/-- `Library.add_book`: allocates `current_id + 1`, stores the record
under `str(id)` with status `"Available"` (the `Book` default),
appends the id to the year and author index lists (creating them if
absent) and updates `current_id`.  Returns the new state and the
returned `Book`. -/
def add_book (c : Catalog) (title author year : String) : Catalog × Book :=
  let new_book_id := c.current_id + 1
  let new_book : Book := ⟨new_book_id, title, author, year, "Available"⟩
  let books := alSet c.books (pyStr new_book_id)
    ⟨new_book.title, new_book.author, new_book.year, new_book.status⟩
  let years := appendIndex c.years new_book.year new_book_id
  let authors := appendIndex c.authors new_book.author new_book_id
  (⟨new_book_id, books, years, authors⟩, new_book)

/-- `Library.delete_book`: `del books[str(id)]`,
`years[year].remove(id)` pruning the key when the list empties, same
for `authors[author]`.  `none` models the uncaught `KeyError` /
`ValueError` the Python code would raise if the book data were not in
the structures (never reached from well-formed states). -/
def delete_book (c : Catalog) (b : Book) : Option Catalog :=
  match alLookup c.books (pyStr b.id) with
  | none => none
  | some _ =>
    match alLookup c.years b.year with
    | none => none
    | some yl =>
      if b.id ∈ yl then
        let yl' := yl.erase b.id
        let years := if yl' = [] then alErase c.years b.year else alSet c.years b.year yl'
        match alLookup c.authors b.author with
        | none => none
        | some al =>
          if b.id ∈ al then
            let al' := al.erase b.id
            let authors :=
              if al' = [] then alErase c.authors b.author else alSet c.authors b.author al'
            some ⟨c.current_id, alErase c.books (pyStr b.id), years, authors⟩
          else none
      else none

/-- `Library.get_all_books`: returns `lib_data["books"]`. -/
def get_all_books (c : Catalog) : List (String × BookRec) := c.books

/-- Builds the `rez_books` dict of `search_by_author_or_year`:
`rez_books[book] = lib_data["books"][str(book)]` for each id in the
index list; `none` models the `KeyError` on a dangling id. -/
def booksOf (c : Catalog) : List Nat → Option (List (Nat × BookRec))
  | [] => some []
  | id :: t =>
    match alLookup c.books (pyStr id) with
    | none => none
    | some rec => (booksOf c t).map (fun r => (id, rec) :: r)

/-- `Library.search_by_author_or_year`: reads the index list for the
given criteria (`.get(value, [])`), then resolves each id against
`books`. -/
def search_by_author_or_year (c : Catalog) (value criteria : String) :
    Option (List (Nat × BookRec)) :=
  let found : List Nat := []
  let found := if criteria = "author" then (alLookup c.authors value).getD [] else found
  let found := if criteria = "year" then (alLookup c.years value).getD [] else found
  booksOf c found

/-- Python's `str.lower()` on the catalog's data (character-wise
lowercasing; `Char.toLower` covers the ASCII range used here). -/
def pyLower (s : String) : String :=
  String.mk (s.data.map Char.toLower)

/-- `Library.search_by_title`: full scan of `books`, keeping entries
whose title equals the query after `.lower()` on both sides. -/
def search_by_title (c : Catalog) (title : String) : List (String × BookRec) :=
  c.books.filter (fun p => pyLower p.2.title == pyLower title)

/-- `Library.search_by_id`: `lib_data["books"].get(id, None)`. -/
def search_by_id (c : Catalog) (id : String) : Option BookRec :=
  alLookup c.books id

/-- `Library.change_book_status`:
`lib_data["books"][str(book.id)]["status"] = new_status`; `none`
models the `KeyError` when the key is absent. -/
def change_book_status (c : Catalog) (b : Book) (new_status : String) : Option Catalog :=
  match alLookup c.books (pyStr b.id) with
  | none => none
  | some rec =>
    some ⟨c.current_id,
      alSet c.books (pyStr b.id) ⟨rec.title, rec.author, rec.year, new_status⟩,
      c.years, c.authors⟩

/-! ### Interaction-shell operations -/

/-- The `Book(found["title"], found["author"], found["year"], id,
found["status"])` reconstruction done by `delete` and
`change_status`. -/
def mkBook (id : Nat) (rec : BookRec) : Book :=
  ⟨id, rec.title, rec.author, rec.year, rec.status⟩

/-- Python's `str.strip()`: drops leading and trailing whitespace. -/
def pyStrip (s : String) : String :=
  String.mk (((s.data.dropWhile Char.isWhitespace).reverse.dropWhile
    Char.isWhitespace).reverse)

/-- Python's `int()` on a stripped string: optional sign followed by
at least one decimal digit.  (Python additionally allows underscore
group separators and non-ASCII digits; those inputs are outside the
scope of the claims.) -/
def pyInt (s : String) : Option Int :=
  match s.data with
  | [] => none
  | '+' :: t => if t = [] then none else (decVal 0 t).map Int.ofNat
  | '-' :: t => if t = [] then none else (decVal 0 t).map (fun n => -(n : Int))
  | l => (decVal 0 l).map Int.ofNat

/-- The shell function `add`: strips the three inputs, rejects empty
title or author, rejects a year that `int()` cannot parse or that
falls outside `[868, current_year]`, and otherwise calls
`Library.add_book`.  `currentYear` stands for
`datetime.datetime.now().year`.  Returns the (possibly unchanged)
state and the created book, if any. -/
def add_shell (c : Catalog) (title author year : String) (currentYear : Int) :
    Catalog × Option Book :=
  let title := pyStrip title
  if title = "" then (c, none)
  else
    let author := pyStrip author
    if author = "" then (c, none)
    else
      let year := pyStrip year
      match pyInt year with
      | none => (c, none)
      | some int_year =>
        if int_year < 868 ∨ currentYear < int_year then (c, none)
        else
          let r := add_book c title author year
          (r.1, some r.2)

/-- The shell function `delete` (confirmation answered "yes"): looks
the id up via `search_by_id(str(id))`; when absent reports not-found
(`false`) and leaves the state alone, otherwise rebuilds a `Book` from
the found record and calls `Library.delete_book`. -/
def delete_shell (c : Catalog) (id : Nat) : Option (Catalog × Bool) :=
  match search_by_id c (pyStr id) with
  | none => some (c, false)
  | some found => (delete_book c (mkBook id found)).map (fun c' => (c', true))

/-- The shell function `change_status`: looks the id up via
`search_by_id(str(id))`; when absent reports not-found (`false`);
choice `1` writes `"Available"`, choice `2` writes `"Сhecked out"`
(sic — the source spells it with a leading Cyrillic С), anything else
is a no-op. -/
def change_status_shell (c : Catalog) (id : Nat) (choice : Nat) :
    Option (Catalog × Bool) :=
  match search_by_id c (pyStr id) with
  | none => some (c, false)
  | some found =>
    if choice = 1 then
      (change_book_status c (mkBook id found) "Available").map (fun c' => (c', true))
    else if choice = 2 then
      (change_book_status c (mkBook id found) "Сhecked out").map (fun c' => (c', true))
    else some (c, true)

/-! ### Reachable states

A catalog state is reachable when it results from running a sequence
of shell-level operations on the fresh `start_data` state.  The
`Option`-valued shells are totalised with `getD`; the `none`
(exception) branches are proved unreachable from well-formed
states. -/

inductive Op where
  | addB (title author year : String)
  | delB (id : Nat)
  | status (id choice : Nat)
deriving DecidableEq, Repr

def execOp (c : Catalog) : Op → Catalog
  | .addB t a y => (add_book c t a y).1
  | .delB id => ((delete_shell c id).map Prod.fst).getD c
  | .status id choice => ((change_status_shell c id choice).map Prod.fst).getD c

def runFrom (c : Catalog) : List Op → Catalog
  | [] => c
  | op :: t => runFrom (execOp c op) t

def run (ops : List Op) : Catalog := runFrom emptyCatalog ops

/-! ### The index/record consistency invariant -/

/-- The index list stored for key `k`, or `[]` when the key is absent. -/
def keyList (m : List (String × List Nat)) (k : String) : List Nat :=
  (alLookup m k).getD []

/-- Decodes a `books` key back to an id (the key must be a nonempty
digit string). -/
def decKey (k : String) : Option Nat :=
  match k.data with
  | [] => none
  | l => decVal 0 l

/-- Book-table side of the invariant: every entry is keyed by the
canonical decimal form of an id `n` with `1 ≤ n ≤ current_id`, and `n`
occurs exactly once in the year index list of its year and exactly
once in the author index list of its author. -/
def wfBooks (c : Catalog) : Bool :=
  c.books.all (fun p =>
    match decKey p.1 with
    | none => false
    | some n =>
      (pyStr n == p.1) && (1 ≤ n) && (n ≤ c.current_id) &&
      ((keyList c.years p.2.year).count n == 1) &&
      ((keyList c.authors p.2.author).count n == 1))

/-- Year-index side of the invariant: no key maps to an empty list,
and every id in a list resolves to a stored record carrying that
year. -/
def wfYears (c : Catalog) : Bool :=
  c.years.all (fun p =>
    (!p.2.isEmpty) && p.2.all (fun n =>
      match alLookup c.books (pyStr n) with
      | some rec => rec.year == p.1
      | none => false))

/-- Author-index side of the invariant. -/
def wfAuthors (c : Catalog) : Bool :=
  c.authors.all (fun p =>
    (!p.2.isEmpty) && p.2.all (fun n =>
      match alLookup c.books (pyStr n) with
      | some rec => rec.author == p.1
      | none => false))

/-- Python dict keys are unique; association lists modelling dicts
must have pairwise-distinct keys. -/
def keysNodup {α : Type} (l : List (String × α)) : Bool :=
  decide (l.map Prod.fst).Nodup

/-- Key uniqueness for the three dict-valued fields. -/
def wfKeys (c : Catalog) : Bool :=
  keysNodup c.books && keysNodup c.years && keysNodup c.authors

/-- Full index/record consistency invariant of a catalog state. -/
def Wf (c : Catalog) : Bool :=
  wfBooks c && wfYears c && wfAuthors c && wfKeys c

theorem pyStr_data_ne_nil (n : Nat) : (pyStr n).data ≠ [] := by
  show natDigitsAux (n + 1) n ≠ []
  rw [natDigitsAux_spec]
  by_cases h10 : n < 10 <;> simp [h10]

theorem decKey_pyStr (n : Nat) : decKey (pyStr n) = some n := by
  have h := decVal_pyStr n
  unfold decKey
  cases hd : (pyStr n).data with
  | nil => exact absurd hd (pyStr_data_ne_nil n)
  | cons a t => rw [hd] at h; exact h


/-! ### Consequences of the invariant -/

theorem wf_books_entry {c : Catalog} (hw : Wf c = true) {k : String} {rec : BookRec}
    (h : (k, rec) ∈ c.books) :
    ∃ n : Nat, k = pyStr n ∧ 1 ≤ n ∧ n ≤ c.current_id ∧
      (keyList c.years rec.year).count n = 1 ∧
      (keyList c.authors rec.author).count n = 1 := by
  have hb : wfBooks c = true := by
    unfold Wf at hw
    simp only [Bool.and_eq_true] at hw
    exact hw.1.1.1
  unfold wfBooks at hb
  rw [List.all_eq_true] at hb
  have hp := hb (k, rec) h
  cases hdk : decKey k with
  | none => rw [hdk] at hp; simp at hp
  | some n =>
    rw [hdk] at hp
    simp only [Bool.and_eq_true, beq_iff_eq, decide_eq_true_eq] at hp
    exact ⟨n, hp.1.1.1.1.symm, hp.1.1.1.2, hp.1.1.2, hp.1.2, hp.2⟩

theorem wf_years_entry {c : Catalog} (hw : Wf c = true) {y : String} {l : List Nat}
    (h : (y, l) ∈ c.years) :
    l ≠ [] ∧ ∀ n ∈ l, ∃ rec, alLookup c.books (pyStr n) = some rec ∧ rec.year = y := by
  have hb : wfYears c = true := by
    unfold Wf at hw
    simp only [Bool.and_eq_true] at hw
    exact hw.1.1.2
  unfold wfYears at hb
  rw [List.all_eq_true] at hb
  have hp := hb (y, l) h
  simp only [Bool.and_eq_true, Bool.not_eq_true', List.all_eq_true] at hp
  constructor
  · intro hnil
    rw [hnil] at hp
    simp at hp
  · intro n hn
    have h2 := hp.2 n hn
    cases hl : alLookup c.books (pyStr n) with
    | none => rw [hl] at h2; simp at h2
    | some rec =>
      rw [hl] at h2
      simp only [beq_iff_eq] at h2
      exact ⟨rec, rfl, h2⟩

theorem wf_authors_entry {c : Catalog} (hw : Wf c = true) {a : String} {l : List Nat}
    (h : (a, l) ∈ c.authors) :
    l ≠ [] ∧ ∀ n ∈ l, ∃ rec, alLookup c.books (pyStr n) = some rec ∧ rec.author = a := by
  have hb : wfAuthors c = true := by
    unfold Wf at hw
    simp only [Bool.and_eq_true] at hw
    exact hw.1.2
  unfold wfAuthors at hb
  rw [List.all_eq_true] at hb
  have hp := hb (a, l) h
  simp only [Bool.and_eq_true, Bool.not_eq_true', List.all_eq_true] at hp
  constructor
  · intro hnil
    rw [hnil] at hp
    simp at hp
  · intro n hn
    have h2 := hp.2 n hn
    cases hl : alLookup c.books (pyStr n) with
    | none => rw [hl] at h2; simp at h2
    | some rec =>
      rw [hl] at h2
      simp only [beq_iff_eq] at h2
      exact ⟨rec, rfl, h2⟩

theorem wf_lookup_bounds {c : Catalog} (hw : Wf c = true) {n : Nat} {rec : BookRec}
    (h : alLookup c.books (pyStr n) = some rec) :
    1 ≤ n ∧ n ≤ c.current_id ∧
      (keyList c.years rec.year).count n = 1 ∧
      (keyList c.authors rec.author).count n = 1 := by
  obtain ⟨m, hk, h1, h2, h3, h4⟩ := wf_books_entry hw (alLookup_mem h)
  have hmn : n = m := pyStr_inj hk
  subst hmn
  exact ⟨h1, h2, h3, h4⟩

theorem wf_fresh {c : Catalog} (hw : Wf c = true) :
    alLookup c.books (pyStr (c.current_id + 1)) = none := by
  cases hl : alLookup c.books (pyStr (c.current_id + 1)) with
  | none => rfl
  | some rec =>
    have := (wf_lookup_bounds hw hl).2.1
    omega

theorem mem_keyList {m : List (String × List Nat)} {k : String} {n : Nat}
    (h : n ∈ keyList m k) : ∃ l, alLookup m k = some l ∧ n ∈ l := by
  unfold keyList at h
  cases hl : alLookup m k with
  | none => rw [hl] at h; simp at h
  | some l => rw [hl] at h; exact ⟨l, rfl, h⟩

theorem wf_keyList_years_le {c : Catalog} (hw : Wf c = true) {k : String} {n : Nat}
    (h : n ∈ keyList c.years k) : n ≤ c.current_id := by
  obtain ⟨l, hl, hn⟩ := mem_keyList h
  obtain ⟨-, hall⟩ := wf_years_entry hw (alLookup_mem hl)
  obtain ⟨rec, hrec, -⟩ := hall n hn
  exact (wf_lookup_bounds hw hrec).2.1

theorem wf_keyList_authors_le {c : Catalog} (hw : Wf c = true) {k : String} {n : Nat}
    (h : n ∈ keyList c.authors k) : n ≤ c.current_id := by
  obtain ⟨l, hl, hn⟩ := mem_keyList h
  obtain ⟨-, hall⟩ := wf_authors_entry hw (alLookup_mem hl)
  obtain ⟨rec, hrec, -⟩ := hall n hn
  exact (wf_lookup_bounds hw hrec).2.1

theorem keyList_appendIndex_self (m : List (String × List Nat)) (k : String) (id : Nat) :
    keyList (appendIndex m k id) k = keyList m k ++ [id] := by
  unfold appendIndex keyList
  cases hl : alLookup m k with
  | none => simp [alLookup_alSet_self]
  | some l => simp [alLookup_alSet_self]

theorem keyList_appendIndex_ne (m : List (String × List Nat)) (k k' : String) (id : Nat)
    (h : k' ≠ k) : keyList (appendIndex m k id) k' = keyList m k' := by
  unfold appendIndex keyList
  cases hl : alLookup m k with
  | none => rw [alLookup_alSet_ne _ _ _ _ h]
  | some l => rw [alLookup_alSet_ne _ _ _ _ h]

theorem alLookup_appendIndex_self (m : List (String × List Nat)) (k : String) (id : Nat) :
    alLookup (appendIndex m k id) k = some (keyList m k ++ [id]) := by
  unfold appendIndex keyList
  cases hl : alLookup m k with
  | none => simp [alLookup_alSet_self]
  | some l => simp [alLookup_alSet_self]

theorem mem_appendIndex {m : List (String × List Nat)} {k : String} {id : Nat}
    {p : String × List Nat} (h : p ∈ appendIndex m k id) :
    p = (k, keyList m k ++ [id]) ∨ p ∈ m := by
  unfold appendIndex at h
  cases hl : alLookup m k with
  | none =>
    rw [hl] at h
    rcases mem_alSet h with h' | h'
    · left; rw [h']; unfold keyList; rw [hl]; rfl
    · right; exact h'
  | some l =>
    rw [hl] at h
    rcases mem_alSet h with h' | h'
    · left; rw [h']; unfold keyList; rw [hl]; rfl
    · right; exact h'


/-! ### Key-uniqueness machinery -/

theorem wf_keys {c : Catalog} (hw : Wf c = true) :
    keysNodup c.books = true ∧ keysNodup c.years = true ∧ keysNodup c.authors = true := by
  unfold Wf wfKeys at hw
  simp only [Bool.and_eq_true] at hw
  exact ⟨hw.2.1.1, hw.2.1.2, hw.2.2⟩

theorem keysNodup_iff {α : Type} (l : List (String × α)) :
    keysNodup l = true ↔ (l.map Prod.fst).Nodup := by
  unfold keysNodup
  exact decide_eq_true_iff

theorem mem_map_fst_alSet {α : Type} {l : List (String × α)} {k k' : String} {v : α}
    (h : k' ∈ (alSet l k v).map Prod.fst) : k' ∈ l.map Prod.fst ∨ k' = k := by
  rw [List.mem_map] at h
  obtain ⟨p, hp, hpk⟩ := h
  rcases mem_alSet hp with h' | h'
  · right; rw [h'] at hpk; exact hpk.symm ▸ rfl
  · left; exact List.mem_map.mpr ⟨p, h', hpk⟩

theorem keysNodup_alSet {α : Type} {l : List (String × α)} (h : keysNodup l = true)
    (k : String) (v : α) : keysNodup (alSet l k v) = true := by
  rw [keysNodup_iff] at h ⊢
  induction l with
  | nil => simp [alSet]
  | cons p t ih =>
    obtain ⟨k0, v0⟩ := p
    rw [List.map_cons, List.nodup_cons] at h
    by_cases h0 : k0 = k
    · subst h0
      have e : alSet ((k0, v0) :: t) k0 v = (k0, v) :: t := by simp [alSet]
      rw [e, List.map_cons, List.nodup_cons]
      exact h
    · have e : alSet ((k0, v0) :: t) k v = (k0, v0) :: alSet t k v := by
        simp [alSet, h0]
      rw [e, List.map_cons, List.nodup_cons]
      refine ⟨?_, ih h.2⟩
      intro hmem
      rcases mem_map_fst_alSet hmem with h' | h'
      · exact h.1 h'
      · exact h0 h'

theorem keysNodup_alErase {α : Type} {l : List (String × α)} (h : keysNodup l = true)
    (k : String) : keysNodup (alErase l k) = true := by
  rw [keysNodup_iff] at h ⊢
  unfold alErase
  exact List.Nodup.sublist ((List.filter_sublist l).map Prod.fst) h

theorem keysNodup_appendIndex {l : List (String × List Nat)} (h : keysNodup l = true)
    (k : String) (id : Nat) : keysNodup (appendIndex l k id) = true := by
  unfold appendIndex
  cases alLookup l k with
  | none => exact keysNodup_alSet h k _
  | some yl => exact keysNodup_alSet h k _

theorem alLookup_eq_of_mem_nodup {α : Type} {l : List (String × α)}
    (h : keysNodup l = true) {p : String × α} (hp : p ∈ l) :
    alLookup l p.1 = some p.2 := by
  rw [keysNodup_iff] at h
  induction l with
  | nil => simp at hp
  | cons q t ih =>
    obtain ⟨k0, v0⟩ := q
    simp only [List.map_cons, List.nodup_cons] at h
    rcases List.mem_cons.mp hp with h' | h'
    · rw [h']
      simp [alLookup]
    · have hne : p.1 ≠ k0 := by
        intro he
        exact h.1 (he ▸ List.mem_map.mpr ⟨p, h', rfl⟩)
      simp only [alLookup, if_neg (Ne.symm hne)]
      exact ih h.2 h'

/-- A sharper `mem_alSet` for duplicate-free keys: surviving old
entries have a key different from the written one. -/
theorem mem_alSet_nodup {α : Type} {l : List (String × α)} (h : keysNodup l = true)
    {k : String} {v : α} {p : String × α} (hp : p ∈ alSet l k v) :
    p = (k, v) ∨ (p ∈ l ∧ p.1 ≠ k) := by
  rw [keysNodup_iff] at h
  induction l with
  | nil =>
    simp [alSet] at hp
    left
    simp [hp]
  | cons q t ih =>
    obtain ⟨k0, v0⟩ := q
    rw [List.map_cons, List.nodup_cons] at h
    by_cases h0 : k0 = k
    · subst h0
      have e : alSet ((k0, v0) :: t) k0 v = (k0, v) :: t := by simp [alSet]
      rw [e] at hp
      rcases List.mem_cons.mp hp with h' | h'
      · left; exact h'
      · right
        refine ⟨List.mem_cons_of_mem _ h', ?_⟩
        intro he
        refine h.1 ?_
        rw [← he]
        exact List.mem_map.mpr ⟨p, h', rfl⟩
    · have e : alSet ((k0, v0) :: t) k v = (k0, v0) :: alSet t k v := by
        simp [alSet, h0]
      rw [e] at hp
      rcases List.mem_cons.mp hp with h' | h'
      · right
        constructor
        · rw [h']
          exact List.mem_cons_self _ _
        · rw [h']
          exact h0
      · rcases ih h.2 h' with h'' | h''
        · left; exact h''
        · right; exact ⟨List.mem_cons_of_mem _ h''.1, h''.2⟩

/-! ### Preservation of the invariant by `add_book` -/

theorem add_book_fst (c : Catalog) (t a y : String) :
    (add_book c t a y).1 = ⟨c.current_id + 1,
      alSet c.books (pyStr (c.current_id + 1)) ⟨t, a, y, "Available"⟩,
      appendIndex c.years y (c.current_id + 1),
      appendIndex c.authors a (c.current_id + 1)⟩ := rfl

theorem count_keyList_years_new {c : Catalog} (hw : Wf c = true) (k : String) :
    (keyList c.years k).count (c.current_id + 1) = 0 := by
  rw [List.count_eq_zero]
  intro hmem
  have := wf_keyList_years_le hw hmem
  omega

theorem count_keyList_authors_new {c : Catalog} (hw : Wf c = true) (k : String) :
    (keyList c.authors k).count (c.current_id + 1) = 0 := by
  rw [List.count_eq_zero]
  intro hmem
  have := wf_keyList_authors_le hw hmem
  omega

theorem wf_add_books (c : Catalog) (t a y : String) (hw : Wf c = true) :
    wfBooks (add_book c t a y).1 = true := by
  rw [add_book_fst]
  unfold wfBooks
  rw [List.all_eq_true]
  intro p hp
  simp only at hp
  rcases mem_alSet hp with h | h
  · subst h
    simp only [decKey_pyStr, Bool.and_eq_true, beq_iff_eq, decide_eq_true_eq]
    refine ⟨⟨⟨⟨by trivial, by omega⟩, by omega⟩, ?_⟩, ?_⟩
    · rw [keyList_appendIndex_self, List.count_append,
        count_keyList_years_new hw y]
      simp
    · rw [keyList_appendIndex_self, List.count_append,
        count_keyList_authors_new hw a]
      simp
  · obtain ⟨n, hk, h1, h2, h3, h4⟩ := wf_books_entry hw h
    rw [hk]
    simp only [decKey_pyStr, Bool.and_eq_true, beq_iff_eq, decide_eq_true_eq]
    refine ⟨⟨⟨⟨by trivial, h1⟩, by omega⟩, ?_⟩, ?_⟩
    · by_cases hy : p.2.year = y
      · rw [hy] at h3 ⊢
        rw [keyList_appendIndex_self, List.count_append, h3]
        have : [c.current_id + 1].count n = 0 := by
          rw [List.count_eq_zero]
          simp
          omega
        rw [this]
      · rw [keyList_appendIndex_ne _ _ _ _ hy, h3]
    · by_cases ha : p.2.author = a
      · rw [ha] at h4 ⊢
        rw [keyList_appendIndex_self, List.count_append, h4]
        have : [c.current_id + 1].count n = 0 := by
          rw [List.count_eq_zero]
          simp
          omega
        rw [this]
      · rw [keyList_appendIndex_ne _ _ _ _ ha, h4]

theorem pyStr_ne_of_ne {m n : Nat} (h : m ≠ n) : pyStr m ≠ pyStr n :=
  fun he => h (pyStr_inj he)

theorem wf_add_years (c : Catalog) (t a y : String) (hw : Wf c = true) :
    wfYears (add_book c t a y).1 = true := by
  rw [add_book_fst]
  unfold wfYears
  rw [List.all_eq_true]
  intro p hp
  simp only at hp ⊢
  rcases mem_appendIndex hp with h | h
  · subst h
    simp only [Bool.and_eq_true, Bool.not_eq_true', List.all_eq_true]
    constructor
    · simp
    · intro n hn
      rcases List.mem_append.mp hn with hn | hn
      · obtain ⟨l, hl, hnl⟩ := mem_keyList hn
        obtain ⟨-, hall⟩ := wf_years_entry hw (alLookup_mem hl)
        obtain ⟨rec, hrec, hyear⟩ := hall n hnl
        have hle : n ≤ c.current_id := (wf_lookup_bounds hw hrec).2.1
        have hne : pyStr n ≠ pyStr (c.current_id + 1) := pyStr_ne_of_ne (by omega)
        rw [alLookup_alSet_ne _ _ _ _ hne, hrec]
        simp [hyear]
      · simp only [List.mem_singleton] at hn
        subst hn
        rw [alLookup_alSet_self]
        simp
  · obtain ⟨hne, hall⟩ := wf_years_entry hw h
    simp only [Bool.and_eq_true, Bool.not_eq_true', List.all_eq_true]
    constructor
    · simpa [List.isEmpty_iff] using hne
    · intro n hn
      obtain ⟨rec, hrec, hyear⟩ := hall n hn
      have hle : n ≤ c.current_id := (wf_lookup_bounds hw hrec).2.1
      have hne2 : pyStr n ≠ pyStr (c.current_id + 1) := pyStr_ne_of_ne (by omega)
      rw [alLookup_alSet_ne _ _ _ _ hne2, hrec]
      simp [hyear]

theorem wf_add_authors (c : Catalog) (t a y : String) (hw : Wf c = true) :
    wfAuthors (add_book c t a y).1 = true := by
  rw [add_book_fst]
  unfold wfAuthors
  rw [List.all_eq_true]
  intro p hp
  simp only at hp ⊢
  rcases mem_appendIndex hp with h | h
  · subst h
    simp only [Bool.and_eq_true, Bool.not_eq_true', List.all_eq_true]
    constructor
    · simp
    · intro n hn
      rcases List.mem_append.mp hn with hn | hn
      · obtain ⟨l, hl, hnl⟩ := mem_keyList hn
        obtain ⟨-, hall⟩ := wf_authors_entry hw (alLookup_mem hl)
        obtain ⟨rec, hrec, hauthor⟩ := hall n hnl
        have hle : n ≤ c.current_id := (wf_lookup_bounds hw hrec).2.1
        have hne : pyStr n ≠ pyStr (c.current_id + 1) := pyStr_ne_of_ne (by omega)
        rw [alLookup_alSet_ne _ _ _ _ hne, hrec]
        simp [hauthor]
      · simp only [List.mem_singleton] at hn
        subst hn
        rw [alLookup_alSet_self]
        simp
  · obtain ⟨hne, hall⟩ := wf_authors_entry hw h
    simp only [Bool.and_eq_true, Bool.not_eq_true', List.all_eq_true]
    constructor
    · simpa [List.isEmpty_iff] using hne
    · intro n hn
      obtain ⟨rec, hrec, hauthor⟩ := hall n hn
      have hle : n ≤ c.current_id := (wf_lookup_bounds hw hrec).2.1
      have hne2 : pyStr n ≠ pyStr (c.current_id + 1) := pyStr_ne_of_ne (by omega)
      rw [alLookup_alSet_ne _ _ _ _ hne2, hrec]
      simp [hauthor]

theorem wf_add_keys (c : Catalog) (t a y : String) (hw : Wf c = true) :
    wfKeys (add_book c t a y).1 = true := by
  obtain ⟨hb, hy, ha⟩ := wf_keys hw
  rw [add_book_fst]
  unfold wfKeys
  simp only
  rw [keysNodup_alSet hb, keysNodup_appendIndex hy, keysNodup_appendIndex ha]
  rfl

theorem wf_add (c : Catalog) (t a y : String) (hw : Wf c = true) :
    Wf (add_book c t a y).1 = true := by
  unfold Wf
  rw [wf_add_books c t a y hw, wf_add_years c t a y hw, wf_add_authors c t a y hw,
    wf_add_keys c t a y hw]
  rfl

/-! ### Preservation of the invariant by `delete_book` -/

theorem count_one_mem {l : List Nat} {n : Nat} (h : l.count n = 1) : n ∈ l := by
  have : 0 < l.count n := by omega
  exact List.count_pos_iff.mp this

theorem keyList_some {m : List (String × List Nat)} {k : String} {l : List Nat}
    (h : alLookup m k = some l) : keyList m k = l := by
  unfold keyList
  rw [h]
  rfl

theorem keyList_count_lookup {c : Catalog} {k : String} {n : Nat}
    (h : (keyList c.years k).count n = 1) :
    ∃ l, alLookup c.years k = some l ∧ l.count n = 1 := by
  unfold keyList at h
  cases he : alLookup c.years k with
  | none => rw [he] at h; simp at h
  | some l => rw [he] at h; exact ⟨l, rfl, h⟩

theorem keyList_count_lookup_authors {c : Catalog} {k : String} {n : Nat}
    (h : (keyList c.authors k).count n = 1) :
    ∃ l, alLookup c.authors k = some l ∧ l.count n = 1 := by
  unfold keyList at h
  cases he : alLookup c.authors k with
  | none => rw [he] at h; simp at h
  | some l => rw [he] at h; exact ⟨l, rfl, h⟩

/-- On a well-formed state, `delete_book` of a stored record succeeds,
and its result has this explicit shape. -/
theorem delete_book_eq {c : Catalog} {id : Nat} {rec : BookRec} (hw : Wf c = true)
    (hfind : alLookup c.books (pyStr id) = some rec) :
    ∃ yl al, alLookup c.years rec.year = some yl ∧ id ∈ yl ∧ yl.count id = 1 ∧
      alLookup c.authors rec.author = some al ∧ id ∈ al ∧ al.count id = 1 ∧
      delete_book c (mkBook id rec) = some
        ⟨c.current_id, alErase c.books (pyStr id),
         (if yl.erase id = [] then alErase c.years rec.year
           else alSet c.years rec.year (yl.erase id)),
         (if al.erase id = [] then alErase c.authors rec.author
           else alSet c.authors rec.author (al.erase id))⟩ := by
  obtain ⟨h1, h2, hcy, hca⟩ := wf_lookup_bounds hw hfind
  obtain ⟨yl, hyl, hcy'⟩ := keyList_count_lookup hcy
  obtain ⟨al, hal, hca'⟩ := keyList_count_lookup_authors hca
  have hmy : id ∈ yl := count_one_mem hcy'
  have hma : id ∈ al := count_one_mem hca'
  refine ⟨yl, al, hyl, hmy, hcy', hal, hma, hca', ?_⟩
  unfold delete_book
  simp [mkBook, hfind, hyl, hal, hmy, hma]

/-- An id in an index list of a key other than its record's own key
cannot occur (year side). -/
theorem id_not_in_other_years {c : Catalog} {id : Nat} {rec : BookRec}
    (hw : Wf c = true) (hfind : alLookup c.books (pyStr id) = some rec)
    {k : String} (hk : k ≠ rec.year) : id ∉ keyList c.years k := by
  intro hmem
  obtain ⟨l, hl, hnl⟩ := mem_keyList hmem
  obtain ⟨-, hall⟩ := wf_years_entry hw (alLookup_mem hl)
  obtain ⟨rec2, hrec2, hyear⟩ := hall id hnl
  rw [hfind] at hrec2
  cases hrec2
  exact hk hyear.symm

theorem id_not_in_other_authors {c : Catalog} {id : Nat} {rec : BookRec}
    (hw : Wf c = true) (hfind : alLookup c.books (pyStr id) = some rec)
    {k : String} (hk : k ≠ rec.author) : id ∉ keyList c.authors k := by
  intro hmem
  obtain ⟨l, hl, hnl⟩ := mem_keyList hmem
  obtain ⟨-, hall⟩ := wf_authors_entry hw (alLookup_mem hl)
  obtain ⟨rec2, hrec2, hauthor⟩ := hall id hnl
  rw [hfind] at hrec2
  cases hrec2
  exact hk hauthor.symm

/-- Deleting a stored record from a well-formed state preserves the
invariant (stated on the explicit result shape of `delete_book_eq`). -/
theorem wf_delete {c : Catalog} {id : Nat} {rec : BookRec} (hw : Wf c = true)
    (hfind : alLookup c.books (pyStr id) = some rec)
    {yl al : List Nat}
    (hyl : alLookup c.years rec.year = some yl) (hcy : yl.count id = 1)
    (hal : alLookup c.authors rec.author = some al) (hca : al.count id = 1) :
    Wf ⟨c.current_id, alErase c.books (pyStr id),
      (if yl.erase id = [] then alErase c.years rec.year
        else alSet c.years rec.year (yl.erase id)),
      (if al.erase id = [] then alErase c.authors rec.author
        else alSet c.authors rec.author (al.erase id))⟩ = true := by
  obtain ⟨hkb, hky, hka⟩ := wf_keys hw
  have hidny : id ∉ yl.erase id := by
    have hce := List.count_erase_self id yl
    rw [hcy] at hce
    intro hmem
    have hpos := List.count_pos_iff.mpr hmem
    omega
  have hidna : id ∉ al.erase id := by
    have hce := List.count_erase_self id al
    rw [hca] at hce
    intro hmem
    have hpos := List.count_pos_iff.mpr hmem
    omega
  have hKLY : ∀ k, keyList (if yl.erase id = [] then alErase c.years rec.year
      else alSet c.years rec.year (yl.erase id)) k =
      if k = rec.year then yl.erase id else keyList c.years k := by
    intro k
    by_cases hk : k = rec.year
    · subst hk
      rw [if_pos rfl]
      by_cases hnil : yl.erase id = []
      · rw [if_pos hnil]
        unfold keyList
        rw [alLookup_alErase_self, hnil]
        rfl
      · rw [if_neg hnil]
        unfold keyList
        rw [alLookup_alSet_self]
        rfl
    · rw [if_neg hk]
      by_cases hnil : yl.erase id = []
      · rw [if_pos hnil]
        unfold keyList
        rw [alLookup_alErase_ne _ _ _ hk]
      · rw [if_neg hnil]
        unfold keyList
        rw [alLookup_alSet_ne _ _ _ _ hk]
  have hKLA : ∀ k, keyList (if al.erase id = [] then alErase c.authors rec.author
      else alSet c.authors rec.author (al.erase id)) k =
      if k = rec.author then al.erase id else keyList c.authors k := by
    intro k
    by_cases hk : k = rec.author
    · subst hk
      rw [if_pos rfl]
      by_cases hnil : al.erase id = []
      · rw [if_pos hnil]
        unfold keyList
        rw [alLookup_alErase_self, hnil]
        rfl
      · rw [if_neg hnil]
        unfold keyList
        rw [alLookup_alSet_self]
        rfl
    · rw [if_neg hk]
      by_cases hnil : al.erase id = []
      · rw [if_pos hnil]
        unfold keyList
        rw [alLookup_alErase_ne _ _ _ hk]
      · rw [if_neg hnil]
        unfold keyList
        rw [alLookup_alSet_ne _ _ _ _ hk]
  have hMEMY : ∀ p : String × List Nat,
      p ∈ (if yl.erase id = [] then alErase c.years rec.year
        else alSet c.years rec.year (yl.erase id)) →
      (p = (rec.year, yl.erase id) ∧ yl.erase id ≠ []) ∨
        (p ∈ c.years ∧ p.1 ≠ rec.year) := by
    intro p hp
    by_cases hnil : yl.erase id = []
    · rw [if_pos hnil] at hp
      right
      exact mem_alErase hp
    · rw [if_neg hnil] at hp
      rcases mem_alSet_nodup hky hp with h | h
      · left; exact ⟨h, hnil⟩
      · right; exact h
  have hMEMA : ∀ p : String × List Nat,
      p ∈ (if al.erase id = [] then alErase c.authors rec.author
        else alSet c.authors rec.author (al.erase id)) →
      (p = (rec.author, al.erase id) ∧ al.erase id ≠ []) ∨
        (p ∈ c.authors ∧ p.1 ≠ rec.author) := by
    intro p hp
    by_cases hnil : al.erase id = []
    · rw [if_pos hnil] at hp
      right
      exact mem_alErase hp
    · rw [if_neg hnil] at hp
      rcases mem_alSet_nodup hka hp with h | h
      · left; exact ⟨h, hnil⟩
      · right; exact h
  have hBne : ∀ n : Nat, n ≠ id →
      alLookup (alErase c.books (pyStr id)) (pyStr n) = alLookup c.books (pyStr n) :=
    fun n hn => alLookup_alErase_ne _ _ _ (pyStr_ne_of_ne hn)
  simp only [Wf, Bool.and_eq_true]
  refine ⟨⟨⟨?_, ?_⟩, ?_⟩, ?_⟩
  · -- books side
    unfold wfBooks
    rw [List.all_eq_true]
    intro p hp
    simp only at hp ⊢
    obtain ⟨hpmem, hpne⟩ := mem_alErase hp
    obtain ⟨n, hk, hn1, hn2, h3, h4⟩ := wf_books_entry hw hpmem
    have hnid : n ≠ id := fun he => hpne (by rw [hk, he])
    rw [hk]
    simp only [decKey_pyStr, Bool.and_eq_true, beq_iff_eq, decide_eq_true_eq]
    refine ⟨⟨⟨⟨by trivial, hn1⟩, hn2⟩, ?_⟩, ?_⟩
    · rw [hKLY p.2.year]
      by_cases hy : p.2.year = rec.year
      · rw [if_pos hy]
        rw [List.count_erase_of_ne hnid]
        rw [hy] at h3
        rw [keyList_some hyl] at h3
        exact h3
      · rw [if_neg hy]
        exact h3
    · rw [hKLA p.2.author]
      by_cases ha : p.2.author = rec.author
      · rw [if_pos ha]
        rw [List.count_erase_of_ne hnid]
        rw [ha] at h4
        rw [keyList_some hal] at h4
        exact h4
      · rw [if_neg ha]
        exact h4
  · -- years side
    unfold wfYears
    rw [List.all_eq_true]
    intro p hp
    simp only at hp ⊢
    rcases hMEMY p hp with ⟨hpe, hnnil⟩ | ⟨hpmem, hpne⟩
    · subst hpe
      simp only [Bool.and_eq_true, Bool.not_eq_true', List.all_eq_true]
      constructor
      · simpa [List.isEmpty_iff] using hnnil
      · intro n hn
        have hnid : n ≠ id := fun he => hidny (he ▸ hn)
        have hnyl : n ∈ yl := List.mem_of_mem_erase hn
        obtain ⟨-, hall⟩ := wf_years_entry hw (alLookup_mem hyl)
        obtain ⟨rec2, hrec2, hyear⟩ := hall n hnyl
        rw [hBne n hnid, hrec2]
        simp [hyear]
    · obtain ⟨hne, hall⟩ := wf_years_entry hw hpmem
      simp only [Bool.and_eq_true, Bool.not_eq_true', List.all_eq_true]
      constructor
      · simpa [List.isEmpty_iff] using hne
      · intro n hn
        obtain ⟨rec2, hrec2, hyear⟩ := hall n hn
        have hnid : n ≠ id := by
          intro he
          rw [he, hfind] at hrec2
          cases hrec2
          exact hpne hyear.symm
        rw [hBne n hnid, hrec2]
        simp [hyear]
  · -- authors side
    unfold wfAuthors
    rw [List.all_eq_true]
    intro p hp
    simp only at hp ⊢
    rcases hMEMA p hp with ⟨hpe, hnnil⟩ | ⟨hpmem, hpne⟩
    · subst hpe
      simp only [Bool.and_eq_true, Bool.not_eq_true', List.all_eq_true]
      constructor
      · simpa [List.isEmpty_iff] using hnnil
      · intro n hn
        have hnid : n ≠ id := fun he => hidna (he ▸ hn)
        have hnal : n ∈ al := List.mem_of_mem_erase hn
        obtain ⟨-, hall⟩ := wf_authors_entry hw (alLookup_mem hal)
        obtain ⟨rec2, hrec2, hauthor⟩ := hall n hnal
        rw [hBne n hnid, hrec2]
        simp [hauthor]
    · obtain ⟨hne, hall⟩ := wf_authors_entry hw hpmem
      simp only [Bool.and_eq_true, Bool.not_eq_true', List.all_eq_true]
      constructor
      · simpa [List.isEmpty_iff] using hne
      · intro n hn
        obtain ⟨rec2, hrec2, hauthor⟩ := hall n hn
        have hnid : n ≠ id := by
          intro he
          rw [he, hfind] at hrec2
          cases hrec2
          exact hpne hauthor.symm
        rw [hBne n hnid, hrec2]
        simp [hauthor]
  · -- key uniqueness
    have hYk : keysNodup (if yl.erase id = [] then alErase c.years rec.year
        else alSet c.years rec.year (yl.erase id)) = true := by
      by_cases hnil : yl.erase id = []
      · rw [if_pos hnil]; exact keysNodup_alErase hky _
      · rw [if_neg hnil]; exact keysNodup_alSet hky _ _
    have hAk : keysNodup (if al.erase id = [] then alErase c.authors rec.author
        else alSet c.authors rec.author (al.erase id)) = true := by
      by_cases hnil : al.erase id = []
      · rw [if_pos hnil]; exact keysNodup_alErase hka _
      · rw [if_neg hnil]; exact keysNodup_alSet hka _ _
    unfold wfKeys
    simp only [Bool.and_eq_true]
    exact ⟨⟨keysNodup_alErase hkb _, hYk⟩, hAk⟩

/-! ### Preservation of the invariant by `change_book_status` -/

theorem change_book_status_eq {c : Catalog} {id : Nat} {rec : BookRec}
    (hfind : alLookup c.books (pyStr id) = some rec) (b : Book) (hb : b.id = id)
    (s : String) :
    change_book_status c b s = some
      ⟨c.current_id,
        alSet c.books (pyStr id) ⟨rec.title, rec.author, rec.year, s⟩,
        c.years, c.authors⟩ := by
  unfold change_book_status
  rw [hb, hfind]

theorem wf_change {c : Catalog} {id : Nat} {rec : BookRec} (hw : Wf c = true)
    (hfind : alLookup c.books (pyStr id) = some rec) (s : String) :
    Wf ⟨c.current_id,
      alSet c.books (pyStr id) ⟨rec.title, rec.author, rec.year, s⟩,
      c.years, c.authors⟩ = true := by
  obtain ⟨hkb, hky, hka⟩ := wf_keys hw
  obtain ⟨h1, h2, hcy, hca⟩ := wf_lookup_bounds hw hfind
  simp only [Wf, Bool.and_eq_true]
  refine ⟨⟨⟨?_, ?_⟩, ?_⟩, ?_⟩
  · unfold wfBooks
    rw [List.all_eq_true]
    intro p hp
    simp only at hp ⊢
    rcases mem_alSet_nodup hkb hp with h | ⟨hpmem, hpne⟩
    · subst h
      simp only [decKey_pyStr, Bool.and_eq_true, beq_iff_eq, decide_eq_true_eq]
      exact ⟨⟨⟨⟨by trivial, h1⟩, h2⟩, hcy⟩, hca⟩
    · obtain ⟨n, hk, hn1, hn2, h3, h4⟩ := wf_books_entry hw hpmem
      rw [hk]
      simp only [decKey_pyStr, Bool.and_eq_true, beq_iff_eq, decide_eq_true_eq]
      exact ⟨⟨⟨⟨by trivial, hn1⟩, hn2⟩, h3⟩, h4⟩
  · unfold wfYears
    rw [List.all_eq_true]
    intro p hp
    simp only at hp ⊢
    obtain ⟨hne, hall⟩ := wf_years_entry hw hp
    simp only [Bool.and_eq_true, Bool.not_eq_true', List.all_eq_true]
    constructor
    · simpa [List.isEmpty_iff] using hne
    · intro n hn
      obtain ⟨rec2, hrec2, hyear⟩ := hall n hn
      by_cases hnid : n = id
      · subst hnid
        rw [hfind] at hrec2
        cases hrec2
        rw [alLookup_alSet_self]
        simp [hyear]
      · rw [alLookup_alSet_ne _ _ _ _ (pyStr_ne_of_ne hnid), hrec2]
        simp [hyear]
  · unfold wfAuthors
    rw [List.all_eq_true]
    intro p hp
    simp only at hp ⊢
    obtain ⟨hne, hall⟩ := wf_authors_entry hw hp
    simp only [Bool.and_eq_true, Bool.not_eq_true', List.all_eq_true]
    constructor
    · simpa [List.isEmpty_iff] using hne
    · intro n hn
      obtain ⟨rec2, hrec2, hauthor⟩ := hall n hn
      by_cases hnid : n = id
      · subst hnid
        rw [hfind] at hrec2
        cases hrec2
        rw [alLookup_alSet_self]
        simp [hauthor]
      · rw [alLookup_alSet_ne _ _ _ _ (pyStr_ne_of_ne hnid), hrec2]
        simp [hauthor]
  · unfold wfKeys
    simp only [Bool.and_eq_true]
    exact ⟨⟨keysNodup_alSet hkb _ _, hky⟩, hka⟩

/-! ### The invariant holds in every reachable state -/

theorem execOp_addB (c : Catalog) (t a y : String) :
    execOp c (Op.addB t a y) = (add_book c t a y).1 := rfl

theorem execOp_delB (c : Catalog) (id : Nat) :
    execOp c (Op.delB id) = ((delete_shell c id).map Prod.fst).getD c := rfl

theorem execOp_status (c : Catalog) (id choice : Nat) :
    execOp c (Op.status id choice) =
      ((change_status_shell c id choice).map Prod.fst).getD c := rfl

theorem wf_execOp (c : Catalog) (op : Op) (hw : Wf c = true) :
    Wf (execOp c op) = true := by
  cases op with
  | addB t a y => exact wf_add c t a y hw
  | delB id =>
    rw [execOp_delB]
    unfold delete_shell
    cases hs : search_by_id c (pyStr id) with
    | none => simpa using hw
    | some rec =>
      unfold search_by_id at hs
      obtain ⟨yl, al, hyl, hmy, hcy, hal, hma, hca, hdel⟩ := delete_book_eq hw hs
      show Wf ((Option.map Prod.fst (Option.map (fun c' => (c', true))
        (delete_book c (mkBook id rec)))).getD c) = true
      rw [hdel]
      simp only [Option.map_some, Option.map_map, Option.getD_some]
      exact wf_delete hw hs hyl hcy hal hca
  | status id choice =>
    rw [execOp_status]
    unfold change_status_shell
    cases hs : search_by_id c (pyStr id) with
    | none => simpa using hw
    | some rec =>
      unfold search_by_id at hs
      show Wf ((Option.map Prod.fst
        (if choice = 1 then
          Option.map (fun c' => (c', true)) (change_book_status c (mkBook id rec) "Available")
         else if choice = 2 then
          Option.map (fun c' => (c', true)) (change_book_status c (mkBook id rec) "Сhecked out")
         else some (c, true))).getD c) = true
      by_cases h1 : choice = 1
      · rw [if_pos h1]
        rw [change_book_status_eq hs (mkBook id rec) rfl "Available"]
        simp only [Option.map_some, Option.map_map, Option.getD_some]
        exact wf_change hw hs "Available"
      · rw [if_neg h1]
        by_cases h2 : choice = 2
        · rw [if_pos h2]
          rw [change_book_status_eq hs (mkBook id rec) rfl "Сhecked out"]
          simp only [Option.map_some, Option.map_map, Option.getD_some]
          exact wf_change hw hs "Сhecked out"
        · rw [if_neg h2]
          simpa using hw

theorem wf_runFrom (ops : List Op) : ∀ c : Catalog, Wf c = true →
    Wf (runFrom c ops) = true := by
  induction ops with
  | nil => intro c hw; exact hw
  | cons op t ih =>
    intro c hw
    exact ih (execOp c op) (wf_execOp c op hw)

theorem wf_empty : Wf emptyCatalog = true := by decide

theorem wf_run (ops : List Op) : Wf (run ops) = true :=
  wf_runFrom ops emptyCatalog wf_empty

/-! ### Identifier allocation -/

/-- The ids handed out by the `add` calls of an operation sequence,
in execution order. -/
def issuedFrom (c : Catalog) : List Op → List Nat
  | [] => []
  | op :: t =>
    match op with
    | Op.addB _ _ _ => (c.current_id + 1) :: issuedFrom (execOp c op) t
    | _ => issuedFrom (execOp c op) t

def issued (ops : List Op) : List Nat := issuedFrom emptyCatalog ops

theorem delete_book_current_id {c : Catalog} {b : Book} {c' : Catalog}
    (h : delete_book c b = some c') : c'.current_id = c.current_id := by
  unfold delete_book at h
  repeat' split at h
  all_goals first
  | exact Option.noConfusion h
  | (injection h with h2; rw [← h2])

theorem change_book_status_current_id {c : Catalog} {b : Book} {s : String} {c' : Catalog}
    (h : change_book_status c b s = some c') : c'.current_id = c.current_id := by
  unfold change_book_status at h
  repeat' split at h
  all_goals first
  | exact Option.noConfusion h
  | (injection h with h2; rw [← h2])

theorem issuedFrom_addB (c : Catalog) (t a y : String) (ops : List Op) :
    issuedFrom c (Op.addB t a y :: ops) =
      (c.current_id + 1) :: issuedFrom (execOp c (Op.addB t a y)) ops := rfl

theorem issuedFrom_delB (c : Catalog) (id : Nat) (ops : List Op) :
    issuedFrom c (Op.delB id :: ops) = issuedFrom (execOp c (Op.delB id)) ops := rfl

theorem issuedFrom_statusOp (c : Catalog) (id choice : Nat) (ops : List Op) :
    issuedFrom c (Op.status id choice :: ops) =
      issuedFrom (execOp c (Op.status id choice)) ops := rfl

theorem execOp_addB_current_id (c : Catalog) (t a y : String) :
    (execOp c (Op.addB t a y)).current_id = c.current_id + 1 := rfl

/-- `delete` has no effect on the id counter. -/
theorem execOp_delB_current_id (c : Catalog) (id : Nat) :
    (execOp c (Op.delB id)).current_id = c.current_id := by
  rw [execOp_delB]
  unfold delete_shell
  cases hs : search_by_id c (pyStr id) with
  | none => simp
  | some rec =>
    show ((Option.map Prod.fst (Option.map (fun c' => (c', true))
      (delete_book c (mkBook id rec)))).getD c).current_id = c.current_id
    cases hdel : delete_book c (mkBook id rec) with
    | none => simp
    | some c' =>
      simp only [Option.map_some', Option.getD_some]
      exact delete_book_current_id hdel

theorem execOp_status_current_id (c : Catalog) (id choice : Nat) :
    (execOp c (Op.status id choice)).current_id = c.current_id := by
  rw [execOp_status]
  unfold change_status_shell
  cases hs : search_by_id c (pyStr id) with
  | none => simp
  | some rec =>
    show ((Option.map Prod.fst
      (if choice = 1 then
        Option.map (fun c' => (c', true)) (change_book_status c (mkBook id rec) "Available")
       else if choice = 2 then
        Option.map (fun c' => (c', true)) (change_book_status c (mkBook id rec) "Сhecked out")
       else some (c, true))).getD c).current_id = c.current_id
    by_cases h1 : choice = 1
    · rw [if_pos h1]
      cases hch : change_book_status c (mkBook id rec) "Available" with
      | none => simp
      | some c' =>
        simp only [Option.map_some', Option.getD_some]
        exact change_book_status_current_id hch
    · rw [if_neg h1]
      by_cases h2 : choice = 2
      · rw [if_pos h2]
        cases hch : change_book_status c (mkBook id rec) "Сhecked out" with
        | none => simp
        | some c' =>
          simp only [Option.map_some', Option.getD_some]
          exact change_book_status_current_id hch
      · rw [if_neg h2]
        simp

theorem execOp_current_id_mono (c : Catalog) (op : Op) :
    c.current_id ≤ (execOp c op).current_id := by
  cases op with
  | addB t a y => rw [execOp_addB_current_id]; omega
  | delB id => rw [execOp_delB_current_id]
  | status id choice => rw [execOp_status_current_id]

theorem runFrom_current_id_mono (ops : List Op) : ∀ c : Catalog,
    c.current_id ≤ (runFrom c ops).current_id := by
  induction ops with
  | nil => intro c; exact Nat.le_refl _
  | cons op t ih =>
    intro c
    exact le_trans (execOp_current_id_mono c op) (ih (execOp c op))

theorem issuedFrom_bounds (ops : List Op) : ∀ c : Catalog, ∀ i ∈ issuedFrom c ops,
    c.current_id < i ∧ i ≤ (runFrom c ops).current_id := by
  induction ops with
  | nil => intro c i hi; simp [issuedFrom] at hi
  | cons op t ih =>
    intro c i hi
    cases op with
    | addB ta aa ya =>
      rw [issuedFrom_addB] at hi
      rcases List.mem_cons.mp hi with h | h
      · subst h
        refine ⟨by omega, ?_⟩
        show c.current_id + 1 ≤ (runFrom (execOp c (Op.addB ta aa ya)) t).current_id
        have h1 := runFrom_current_id_mono t (execOp c (Op.addB ta aa ya))
        rw [execOp_addB_current_id] at h1
        exact h1
      · have h2 := ih (execOp c (Op.addB ta aa ya)) i h
        rw [execOp_addB_current_id] at h2
        exact ⟨by omega, h2.2⟩
    | delB id =>
      rw [issuedFrom_delB] at hi
      have h2 := ih (execOp c (Op.delB id)) i hi
      rw [execOp_delB_current_id] at h2
      exact h2
    | status id choice =>
      rw [issuedFrom_statusOp] at hi
      have h2 := ih (execOp c (Op.status id choice)) i hi
      rw [execOp_status_current_id] at h2
      exact h2

theorem issuedFrom_sorted (ops : List Op) : ∀ c : Catalog,
    (issuedFrom c ops).Pairwise (· < ·) := by
  induction ops with
  | nil => intro c; simp [issuedFrom]
  | cons op t ih =>
    intro c
    cases op with
    | addB ta aa ya =>
      rw [issuedFrom_addB]
      rw [List.pairwise_cons]
      constructor
      · intro i hi
        have h2 := (issuedFrom_bounds t (execOp c (Op.addB ta aa ya)) i hi).1
        rw [execOp_addB_current_id] at h2
        omega
      · exact ih (execOp c (Op.addB ta aa ya))
    | delB id =>
      rw [issuedFrom_delB]
      exact ih (execOp c (Op.delB id))
    | status id choice =>
      rw [issuedFrom_statusOp]
      exact ih (execOp c (Op.status id choice))

/-! ### Persistence round trip

`save_data` writes `lib_data` with `json.dump`; `Library.__init__`
reads it back with `json.load`.  We model the persisted document at
the JSON-value level: `encCatalog` is the document `save_data` writes
(field names `current_id`, `books`, `years`, `authors` as in the
source), and `decCatalog` reads such a document back into the
aggregate. -/

inductive Json where
  | num (n : Int)
  | str (s : String)
  | arr (l : List Json)
  | obj (fields : List (String × Json))

def encBookRec (r : BookRec) : Json :=
  Json.obj [("title", Json.str r.title), ("author", Json.str r.author),
    ("year", Json.str r.year), ("status", Json.str r.status)]

def encIds (l : List Nat) : Json :=
  Json.arr (l.map (fun n => Json.num (Int.ofNat n)))

def encCatalog (c : Catalog) : Json :=
  Json.obj [("current_id", Json.num (Int.ofNat c.current_id)),
    ("books", Json.obj (c.books.map (fun p => (p.1, encBookRec p.2)))),
    ("years", Json.obj (c.years.map (fun p => (p.1, encIds p.2)))),
    ("authors", Json.obj (c.authors.map (fun p => (p.1, encIds p.2))))]

def optList {α β : Type} (f : α → Option β) : List α → Option (List β)
  | [] => some []
  | x :: t =>
    match f x with
    | none => none
    | some y =>
      match optList f t with
      | none => none
      | some r => some (y :: r)

def decStr : Json → Option String
  | Json.str s => some s
  | _ => none

def decNat : Json → Option Nat
  | Json.num n => if n < 0 then none else some n.toNat
  | _ => none

def decRec (j : Json) : Option BookRec :=
  match j with
  | Json.obj fields =>
    match alLookup fields "title" with
    | none => none
    | some jt =>
      match decStr jt with
      | none => none
      | some t =>
        match alLookup fields "author" with
        | none => none
        | some ja =>
          match decStr ja with
          | none => none
          | some a =>
            match alLookup fields "year" with
            | none => none
            | some jy =>
              match decStr jy with
              | none => none
              | some y =>
                match alLookup fields "status" with
                | none => none
                | some js =>
                  match decStr js with
                  | none => none
                  | some st => some ⟨t, a, y, st⟩
  | _ => none

def decIds (j : Json) : Option (List Nat) :=
  match j with
  | Json.arr l => optList decNat l
  | _ => none

def decEntries {α : Type} (f : Json → Option α) (j : Json) :
    Option (List (String × α)) :=
  match j with
  | Json.obj fields =>
    optList (fun p =>
      match f p.2 with
      | none => none
      | some v => some (p.1, v)) fields
  | _ => none

def decCatalog (j : Json) : Option Catalog :=
  match j with
  | Json.obj fields =>
    match alLookup fields "current_id" with
    | none => none
    | some jc =>
      match decNat jc with
      | none => none
      | some cid =>
        match alLookup fields "books" with
        | none => none
        | some jb =>
          match decEntries decRec jb with
          | none => none
          | some books =>
            match alLookup fields "years" with
            | none => none
            | some jy =>
              match decEntries decIds jy with
              | none => none
              | some years =>
                match alLookup fields "authors" with
                | none => none
                | some ja =>
                  match decEntries decIds ja with
                  | none => none
                  | some authors => some ⟨cid, books, years, authors⟩
  | _ => none

theorem optList_map_some {α β : Type} (f : β → Option α) (g : α → β) (l : List α)
    (h : ∀ x ∈ l, f (g x) = some x) : optList f (l.map g) = some l := by
  induction l with
  | nil => rfl
  | cons x t ih =>
    rw [List.map_cons]
    unfold optList
    rw [h x (List.mem_cons_self x t)]
    rw [ih (fun z hz => h z (List.mem_cons_of_mem x hz))]

theorem decNat_num (n : Nat) : decNat (Json.num (Int.ofNat n)) = some n := by
  show (if Int.ofNat n < 0 then none else some (Int.ofNat n).toNat) = some n
  have h0 : ¬ Int.ofNat n < 0 := by
    show ¬ (n : Int) < 0
    exact Int.not_lt.mpr (Int.natCast_nonneg n)
  rw [if_neg h0]
  rfl

theorem decNat_natCast (n : Nat) : decNat (Json.num (n : Int)) = some n :=
  decNat_num n

theorem decRec_enc (r : BookRec) : decRec (encBookRec r) = some r := by
  simp [decRec, encBookRec, alLookup, decStr]

theorem decIds_enc (l : List Nat) : decIds (encIds l) = some l := by
  unfold decIds encIds
  exact optList_map_some decNat (fun n => Json.num (Int.ofNat n)) l
    (fun x _ => decNat_num x)

theorem decEntries_enc {α : Type} (f : Json → Option α) (g : α → Json)
    (l : List (String × α)) (h : ∀ x : α, f (g x) = some x) :
    decEntries f (Json.obj (l.map (fun p => (p.1, g p.2)))) = some l := by
  unfold decEntries
  refine optList_map_some _ _ l ?_
  intro p hp
  simp [h p.2]

/-- Dumping the aggregate and loading it back restores it exactly. -/
theorem decCatalog_encCatalog (c : Catalog) : decCatalog (encCatalog c) = some c := by
  have hb := decEntries_enc decRec encBookRec c.books decRec_enc
  have hy := decEntries_enc decIds encIds c.years decIds_enc
  have ha := decEntries_enc decIds encIds c.authors decIds_enc
  unfold encCatalog decCatalog
  simp [alLookup, decNat_num, decNat_natCast, hb, hy, ha]

/-! ### Query lemmas -/

theorem search_author_eq (c : Catalog) (v : String) :
    search_by_author_or_year c v "author" = booksOf c (keyList c.authors v) := by
  unfold search_by_author_or_year keyList
  simp

theorem search_year_eq (c : Catalog) (v : String) :
    search_by_author_or_year c v "year" = booksOf c (keyList c.years v) := by
  unfold search_by_author_or_year keyList
  simp

theorem booksOf_spec {c : Catalog} {ids : List Nat}
    (h : ∀ n ∈ ids, ∃ rec, alLookup c.books (pyStr n) = some rec) :
    ∃ r, booksOf c ids = some r ∧
      ∀ n rec, n ∈ ids → alLookup c.books (pyStr n) = some rec → (n, rec) ∈ r := by
  induction ids with
  | nil => exact ⟨[], rfl, by simp⟩
  | cons x t ih =>
    obtain ⟨rec, hrec⟩ := h x (List.mem_cons_self x t)
    obtain ⟨r, hr, hmem⟩ := ih (fun n hn => h n (List.mem_cons_of_mem x hn))
    refine ⟨(x, rec) :: r, ?_, ?_⟩
    · unfold booksOf
      rw [hrec, hr]
      rfl
    · intro n rec2 hn hrec2
      rcases List.mem_cons.mp hn with he | hn2
      · subst he
        rw [hrec] at hrec2
        injection hrec2 with he2
        subst he2
        exact List.mem_cons_self _ _
      · exact List.mem_cons_of_mem _ (hmem n rec2 hn2 hrec2)

theorem search_by_title_mem (c : Catalog) (q : String) (p : String × BookRec) :
    p ∈ search_by_title c q ↔ p ∈ c.books ∧ pyLower p.2.title = pyLower q := by
  unfold search_by_title
  rw [List.mem_filter]
  simp

/-! ### Status values -/

/-- Every stored record carries one of the two status strings the
program ever writes: `"Available"` (from `add_book` and choice 1 of
`change_status`) and `"Сhecked out"` (choice 2; spelled in the source
with a leading Cyrillic С). -/
def statusOk (c : Catalog) : Bool :=
  c.books.all (fun p => p.2.status == "Available" || p.2.status == "Сhecked out")

theorem delete_book_books {c : Catalog} {b : Book} {c' : Catalog}
    (h : delete_book c b = some c') : c'.books = alErase c.books (pyStr b.id) := by
  unfold delete_book at h
  repeat' split at h
  all_goals first
  | exact Option.noConfusion h
  | (injection h with h2; rw [← h2])

theorem statusOk_entry {c : Catalog} (h : statusOk c = true) {p : String × BookRec}
    (hp : p ∈ c.books) : p.2.status = "Available" ∨ p.2.status = "Сhecked out" := by
  unfold statusOk at h
  rw [List.all_eq_true] at h
  have := h p hp
  simpa using this

theorem statusOk_execOp (c : Catalog) (op : Op) (h : statusOk c = true) :
    statusOk (execOp c op) = true := by
  cases op with
  | addB t a y =>
    rw [execOp_addB, add_book_fst]
    unfold statusOk
    rw [List.all_eq_true]
    intro p hp
    simp only at hp ⊢
    rcases mem_alSet hp with hp' | hp'
    · subst hp'
      simp
    · rcases statusOk_entry h hp' with hs | hs <;> simp [hs]
  | delB id =>
    rw [execOp_delB]
    unfold delete_shell
    cases hs : search_by_id c (pyStr id) with
    | none => simpa using h
    | some rec =>
      show statusOk ((Option.map Prod.fst (Option.map (fun c' => (c', true))
        (delete_book c (mkBook id rec)))).getD c) = true
      cases hdel : delete_book c (mkBook id rec) with
      | none => simpa using h
      | some c' =>
        simp only [Option.map_some', Option.getD_some]
        unfold statusOk
        rw [List.all_eq_true]
        intro p hp
        rw [delete_book_books hdel] at hp
        rcases statusOk_entry h (mem_alErase hp).1 with hst | hst <;> simp [hst]
  | status id choice =>
    rw [execOp_status]
    unfold change_status_shell
    cases hs : search_by_id c (pyStr id) with
    | none => simpa using h
    | some rec =>
      unfold search_by_id at hs
      show statusOk ((Option.map Prod.fst
        (if choice = 1 then
          Option.map (fun c' => (c', true)) (change_book_status c (mkBook id rec) "Available")
         else if choice = 2 then
          Option.map (fun c' => (c', true)) (change_book_status c (mkBook id rec) "Сhecked out")
         else some (c, true))).getD c) = true
      have hgen : ∀ s : String, s = "Available" ∨ s = "Сhecked out" →
          statusOk ⟨c.current_id,
            alSet c.books (pyStr id) ⟨rec.title, rec.author, rec.year, s⟩,
            c.years, c.authors⟩ = true := by
        intro s hsv
        unfold statusOk
        rw [List.all_eq_true]
        intro p hp
        simp only at hp ⊢
        rcases mem_alSet hp with hp' | hp'
        · subst hp'
          rcases hsv with hsv | hsv <;> simp [hsv]
        · rcases statusOk_entry h hp' with hst | hst <;> simp [hst]
      by_cases h1 : choice = 1
      · rw [if_pos h1]
        rw [change_book_status_eq hs (mkBook id rec) rfl "Available"]
        simp only [Option.map_some', Option.getD_some]
        exact hgen "Available" (Or.inl rfl)
      · rw [if_neg h1]
        by_cases h2 : choice = 2
        · rw [if_pos h2]
          rw [change_book_status_eq hs (mkBook id rec) rfl "Сhecked out"]
          simp only [Option.map_some', Option.getD_some]
          exact hgen "Сhecked out" (Or.inr rfl)
        · rw [if_neg h2]
          simpa using h

theorem statusOk_run (ops : List Op) : statusOk (run ops) = true := by
  suffices hgen : ∀ c : Catalog, statusOk c = true → statusOk (runFrom c ops) = true by
    exact hgen emptyCatalog (by decide)
  induction ops with
  | nil => intro c hc; exact hc
  | cons op t ih =>
    intro c hc
    exact ih (execOp c op) (statusOk_execOp c op hc)

/-! ### Shell `add` case analysis -/

theorem add_shell_eq (c : Catalog) (t a y : String) (cy : Int) :
    add_shell c t a y cy =
      if pyStrip t = "" then (c, none)
      else if pyStrip a = "" then (c, none)
      else
        match pyInt (pyStrip y) with
        | none => (c, none)
        | some n =>
          if n < 868 ∨ cy < n then (c, none)
          else ((add_book c (pyStrip t) (pyStrip a) (pyStrip y)).1,
            some (add_book c (pyStrip t) (pyStrip a) (pyStrip y)).2) := rfl

/-! ### The claims -/

/-- Claim C1: index/record consistency is an invariant preserved by
every catalog operation (add, delete, changeStatus): every operation
maps a well-formed state to a well-formed state, hence every reachable
state is well-formed — every id in `by_year`/`by_author` is a key of
`records`, every record's id occurs exactly once in the index list of
its year and of its author, and no index key maps to an empty list
(all encoded in `Wf`). -/
theorem claim_c1_index_consistency :
    (∀ (c : Catalog) (op : Op), Wf c = true → Wf (execOp c op) = true) ∧
    (∀ ops : List Op, Wf (run ops) = true) :=
  ⟨fun c op h => wf_execOp c op h, wf_run⟩

theorem claim_c1_witness :
    Wf emptyCatalog = true ∧
      Wf (execOp emptyCatalog (Op.addB "Dune" "Herbert" "1965")) = true :=
  ⟨by decide,
   claim_c1_index_consistency.1 emptyCatalog (Op.addB "Dune" "Herbert" "1965") (by decide)⟩

/-- Claim C2: starting from an empty catalog, the ids issued by `add`
are pairwise strictly increasing in issue order (hence unique, never
reusing a deleted id), every issued id is bounded by the final
`current_id` counter, and `delete` never changes the counter. -/
theorem claim_c2_id_allocation (ops : List Op) :
    (issued ops).Pairwise (· < ·) ∧
    (∀ i ∈ issued ops, i ≤ (run ops).current_id) ∧
    (∀ (c : Catalog) (id : Nat), (execOp c (Op.delB id)).current_id = c.current_id) := by
  refine ⟨issuedFrom_sorted ops emptyCatalog, ?_, fun c id => execOp_delB_current_id c id⟩
  intro i hi
  exact (issuedFrom_bounds ops emptyCatalog i hi).2

theorem claim_c2_witness :
    1 ∈ issued [Op.addB "Dune" "Herbert" "1965"] ∧
      1 ≤ (run [Op.addB "Dune" "Herbert" "1965"]).current_id :=
  ⟨by decide, (claim_c2_id_allocation [Op.addB "Dune" "Herbert" "1965"]).2.1 1 (by decide)⟩

/-- Claim C5: dumping a catalog to its persisted JSON document
(`save_data`) and parsing that document back (the load in
`Library.__init__`) restores the identical aggregate: same records,
same `years` and `authors` index contents, same `current_id`. -/
theorem claim_c5_roundtrip (c : Catalog) : decCatalog (encCatalog c) = some c :=
  decCatalog_encCatalog c

/-- Claim C6: deleting a nonexistent id and changing the status of a
nonexistent id are reported as non-fatal not-found outcomes (`false`
flag, state unchanged, `some` result — i.e. no exception), and a
search over an absent index key yields the empty result. -/
theorem claim_c6_notfound (c : Catalog) (id choice : Nat) (v : String) :
    (search_by_id c (pyStr id) = none →
      delete_shell c id = some (c, false) ∧
      change_status_shell c id choice = some (c, false)) ∧
    (alLookup c.authors v = none → search_by_author_or_year c v "author" = some []) ∧
    (alLookup c.years v = none → search_by_author_or_year c v "year" = some []) := by
  refine ⟨?_, ?_, ?_⟩
  · intro h
    constructor
    · unfold delete_shell
      rw [h]
    · unfold change_status_shell
      rw [h]
  · intro h
    rw [search_author_eq]
    unfold keyList
    rw [h]
    rfl
  · intro h
    rw [search_year_eq]
    unfold keyList
    rw [h]
    rfl

theorem claim_c6_witness :
    delete_shell emptyCatalog 5 = some (emptyCatalog, false) ∧
    search_by_author_or_year emptyCatalog "Herbert" "author" = some [] :=
  ⟨((claim_c6_notfound emptyCatalog 5 1 "Herbert").1 (by decide)).1,
   (claim_c6_notfound emptyCatalog 5 1 "Herbert").2.1 (by decide)⟩

/-- Claim C7 counterexample: the claim says every stored status is in
{"Available", "CheckedOut"}, but the reachable state obtained by
adding a book and then changing its status with choice 2 stores the
status `"Сhecked out"` (leading Cyrillic С, lowercase k, space), which
is neither of the two claimed values. -/
theorem claim_c7_counterexample :
    search_by_id (run [Op.addB "Dune" "Herbert" "1965", Op.status 1 2]) (pyStr 1) =
      some ⟨"Dune", "Herbert", "1965", "Сhecked out"⟩ ∧
    ("Сhecked out" : String) ≠ "Available" ∧
    ("Сhecked out" : String) ≠ "CheckedOut" := by
  decide

/-- Claim C7 (amended): in every reachable state every stored record's
status is one of the two values the program actually writes:
`"Available"` (from `add_book` and choice 1 of `change_status`) or
`"Сhecked out"` (choice 2, spelled with a leading Cyrillic С) — not
{Available, CheckedOut} as claimed. -/
theorem claim_c7_status_values (ops : List Op) : statusOk (run ops) = true :=
  statusOk_run ops

/-- Claim C10: `search_by_author_or_year` with a criteria other than
"author" or "year" returns the empty mapping for every state and
value, without an exception. -/
theorem claim_c10_unknown_criteria (c : Catalog) (v crit : String)
    (h1 : crit ≠ "author") (h2 : crit ≠ "year") :
    search_by_author_or_year c v crit = some [] := by
  unfold search_by_author_or_year
  simp only [if_neg h1, if_neg h2]
  rfl

theorem claim_c10_witness :
    search_by_author_or_year emptyCatalog "Herbert" "title" = some [] :=
  claim_c10_unknown_criteria emptyCatalog "Herbert" "title" (by decide) (by decide)

/-- Claim C3: after `add_book(title, author, year)` on a well-formed
state, looking up the fresh id finds a record with the given fields
and status "Available", and the author and year searches both contain
that id. -/
theorem claim_c3_add_find (c : Catalog) (t a y : String) (hw : Wf c = true) :
    search_by_id (add_book c t a y).1 (pyStr (add_book c t a y).2.id) =
      some ⟨t, a, y, "Available"⟩ ∧
    (∃ l, search_by_author_or_year (add_book c t a y).1 a "author" = some l ∧
      ((add_book c t a y).2.id, (⟨t, a, y, "Available"⟩ : BookRec)) ∈ l) ∧
    (∃ l, search_by_author_or_year (add_book c t a y).1 y "year" = some l ∧
      ((add_book c t a y).2.id, (⟨t, a, y, "Available"⟩ : BookRec)) ∈ l) := by
  have hself : alLookup (add_book c t a y).1.books (pyStr (c.current_id + 1)) =
      some ⟨t, a, y, "Available"⟩ :=
    alLookup_alSet_self c.books (pyStr (c.current_id + 1)) ⟨t, a, y, "Available"⟩
  have hpres : ∀ n : Nat, n ≤ c.current_id →
      ∀ rec, alLookup c.books (pyStr n) = some rec →
      alLookup (add_book c t a y).1.books (pyStr n) = some rec := by
    intro n hle rec hrec
    have hne : pyStr n ≠ pyStr (c.current_id + 1) := pyStr_ne_of_ne (by omega)
    show alLookup (alSet c.books (pyStr (c.current_id + 1)) ⟨t, a, y, "Available"⟩)
      (pyStr n) = some rec
    rw [alLookup_alSet_ne _ _ _ _ hne]
    exact hrec
  refine ⟨hself, ?_, ?_⟩
  · rw [search_author_eq]
    have hkl : keyList (add_book c t a y).1.authors a =
        keyList c.authors a ++ [c.current_id + 1] :=
      keyList_appendIndex_self c.authors a (c.current_id + 1)
    rw [hkl]
    have hall : ∀ n ∈ keyList c.authors a ++ [c.current_id + 1],
        ∃ rec, alLookup (add_book c t a y).1.books (pyStr n) = some rec := by
      intro n hn
      rcases List.mem_append.mp hn with hn | hn
      · obtain ⟨l, hl, hnl⟩ := mem_keyList hn
        obtain ⟨-, hx⟩ := wf_authors_entry hw (alLookup_mem hl)
        obtain ⟨rec, hrec, -⟩ := hx n hnl
        exact ⟨rec, hpres n (wf_lookup_bounds hw hrec).2.1 rec hrec⟩
      · simp only [List.mem_singleton] at hn
        subst hn
        exact ⟨⟨t, a, y, "Available"⟩, hself⟩
    obtain ⟨r, hr, hmem⟩ := booksOf_spec hall
    exact ⟨r, hr, hmem (c.current_id + 1) ⟨t, a, y, "Available"⟩ (by simp) hself⟩
  · rw [search_year_eq]
    have hkl : keyList (add_book c t a y).1.years y =
        keyList c.years y ++ [c.current_id + 1] :=
      keyList_appendIndex_self c.years y (c.current_id + 1)
    rw [hkl]
    have hall : ∀ n ∈ keyList c.years y ++ [c.current_id + 1],
        ∃ rec, alLookup (add_book c t a y).1.books (pyStr n) = some rec := by
      intro n hn
      rcases List.mem_append.mp hn with hn | hn
      · obtain ⟨l, hl, hnl⟩ := mem_keyList hn
        obtain ⟨-, hx⟩ := wf_years_entry hw (alLookup_mem hl)
        obtain ⟨rec, hrec, -⟩ := hx n hnl
        exact ⟨rec, hpres n (wf_lookup_bounds hw hrec).2.1 rec hrec⟩
      · simp only [List.mem_singleton] at hn
        subst hn
        exact ⟨⟨t, a, y, "Available"⟩, hself⟩
    obtain ⟨r, hr, hmem⟩ := booksOf_spec hall
    exact ⟨r, hr, hmem (c.current_id + 1) ⟨t, a, y, "Available"⟩ (by simp) hself⟩

theorem claim_c3_witness :
    Wf emptyCatalog = true ∧
    search_by_id (add_book emptyCatalog "Dune" "Herbert" "1965").1
      (pyStr (add_book emptyCatalog "Dune" "Herbert" "1965").2.id) =
      some ⟨"Dune", "Herbert", "1965", "Available"⟩ :=
  ⟨by decide, (claim_c3_add_find emptyCatalog "Dune" "Herbert" "1965" (by decide)).1⟩

/-- Claim C4: deleting an existing record (via the shell's `delete`,
which looks the id up first and then calls `delete_book`) succeeds
with a found outcome; afterwards the id is gone from the book table,
occurs in no year or author index list, a year/author key whose list
held only this id is removed entirely, and `current_id` is
unchanged. -/
theorem claim_c4_delete (c : Catalog) (id : Nat) (rec : BookRec) (hw : Wf c = true)
    (hfind : search_by_id c (pyStr id) = some rec) :
    ∃ c', delete_shell c id = some (c', true) ∧
      search_by_id c' (pyStr id) = none ∧
      (∀ k l, alLookup c'.years k = some l → id ∉ l) ∧
      (∀ k l, alLookup c'.authors k = some l → id ∉ l) ∧
      (alLookup c.years rec.year = some [id] → alLookup c'.years rec.year = none) ∧
      (alLookup c.authors rec.author = some [id] →
        alLookup c'.authors rec.author = none) ∧
      c'.current_id = c.current_id := by
  have hfind' : alLookup c.books (pyStr id) = some rec := hfind
  obtain ⟨yl, al, hyl, hmy, hcy, hal, hma, hca, hdel⟩ := delete_book_eq hw hfind'
  have hidny : id ∉ yl.erase id := by
    have hce := List.count_erase_self id yl
    rw [hcy] at hce
    intro hmem
    have hpos := List.count_pos_iff.mpr hmem
    omega
  have hidna : id ∉ al.erase id := by
    have hce := List.count_erase_self id al
    rw [hca] at hce
    intro hmem
    have hpos := List.count_pos_iff.mpr hmem
    omega
  refine ⟨⟨c.current_id, alErase c.books (pyStr id),
      (if yl.erase id = [] then alErase c.years rec.year
        else alSet c.years rec.year (yl.erase id)),
      (if al.erase id = [] then alErase c.authors rec.author
        else alSet c.authors rec.author (al.erase id))⟩, ?_, ?_, ?_, ?_, ?_, ?_, rfl⟩
  · unfold delete_shell
    rw [hfind]
    show Option.map (fun x => (x, true)) (delete_book c (mkBook id rec)) = _
    rw [hdel]
    rfl
  · exact alLookup_alErase_self _ _
  · intro k l hkl
    replace hkl : alLookup (if yl.erase id = [] then alErase c.years rec.year
      else alSet c.years rec.year (yl.erase id)) k = some l := hkl
    by_cases hk : k = rec.year
    · subst hk
      by_cases hnil : yl.erase id = []
      · rw [if_pos hnil, alLookup_alErase_self] at hkl
        exact Option.noConfusion hkl
      · rw [if_neg hnil, alLookup_alSet_self] at hkl
        injection hkl with he
        subst he
        exact hidny
    · have he : alLookup (if yl.erase id = [] then alErase c.years rec.year
          else alSet c.years rec.year (yl.erase id)) k = alLookup c.years k := by
        by_cases hnil : yl.erase id = []
        · rw [if_pos hnil]
          exact alLookup_alErase_ne _ _ _ hk
        · rw [if_neg hnil]
          exact alLookup_alSet_ne _ _ _ _ hk
      rw [he] at hkl
      intro hin
      have hmem : id ∈ keyList c.years k := by
        rw [keyList_some hkl]
        exact hin
      exact id_not_in_other_years hw hfind' hk hmem
  · intro k l hkl
    replace hkl : alLookup (if al.erase id = [] then alErase c.authors rec.author
      else alSet c.authors rec.author (al.erase id)) k = some l := hkl
    by_cases hk : k = rec.author
    · subst hk
      by_cases hnil : al.erase id = []
      · rw [if_pos hnil, alLookup_alErase_self] at hkl
        exact Option.noConfusion hkl
      · rw [if_neg hnil, alLookup_alSet_self] at hkl
        injection hkl with he
        subst he
        exact hidna
    · have he : alLookup (if al.erase id = [] then alErase c.authors rec.author
          else alSet c.authors rec.author (al.erase id)) k = alLookup c.authors k := by
        by_cases hnil : al.erase id = []
        · rw [if_pos hnil]
          exact alLookup_alErase_ne _ _ _ hk
        · rw [if_neg hnil]
          exact alLookup_alSet_ne _ _ _ _ hk
      rw [he] at hkl
      intro hin
      have hmem : id ∈ keyList c.authors k := by
        rw [keyList_some hkl]
        exact hin
      exact id_not_in_other_authors hw hfind' hk hmem
  · intro hsole
    rw [hyl] at hsole
    injection hsole with he
    subst he
    show alLookup (if ([id] : List Nat).erase id = [] then alErase c.years rec.year
      else alSet c.years rec.year (([id] : List Nat).erase id)) rec.year = none
    have hnil : ([id] : List Nat).erase id = [] := by simp
    rw [if_pos hnil]
    exact alLookup_alErase_self _ _
  · intro hsole
    rw [hal] at hsole
    injection hsole with he
    subst he
    show alLookup (if ([id] : List Nat).erase id = [] then alErase c.authors rec.author
      else alSet c.authors rec.author (([id] : List Nat).erase id)) rec.author = none
    have hnil : ([id] : List Nat).erase id = [] := by simp
    rw [if_pos hnil]
    exact alLookup_alErase_self _ _

theorem claim_c4_witness :
    ∃ c', delete_shell (run [Op.addB "Dune" "Herbert" "1965"]) 1 = some (c', true) ∧
      search_by_id c' (pyStr 1) = none ∧
      (∀ k l, alLookup c'.years k = some l → 1 ∉ l) ∧
      (∀ k l, alLookup c'.authors k = some l → 1 ∉ l) ∧
      (alLookup (run [Op.addB "Dune" "Herbert" "1965"]).years "1965" = some [1] →
        alLookup c'.years "1965" = none) ∧
      (alLookup (run [Op.addB "Dune" "Herbert" "1965"]).authors "Herbert" = some [1] →
        alLookup c'.authors "Herbert" = none) ∧
      c'.current_id = (run [Op.addB "Dune" "Herbert" "1965"]).current_id :=
  claim_c4_delete (run [Op.addB "Dune" "Herbert" "1965"]) 1
    ⟨"Dune", "Herbert", "1965", "Available"⟩ (by decide) (by decide)

/-- Claim C8: the shell `add` accepts exactly when the stripped title
and author are nonempty and the stripped year parses as an integer in
[868, currentYear]; any rejected `add` leaves the catalog unchanged;
in particular year "500" (below 868) and year "abcd" (non-numeric)
are always rejected with the catalog unchanged. -/
theorem claim_c8_add_validation (c : Catalog) (t a y : String) (cy : Int) :
    ((add_shell c t a y cy).2.isSome ↔
      (pyStrip t ≠ "" ∧ pyStrip a ≠ "" ∧
        ∃ n : Int, pyInt (pyStrip y) = some n ∧ 868 ≤ n ∧ n ≤ cy)) ∧
    ((add_shell c t a y cy).2 = none → (add_shell c t a y cy).1 = c) ∧
    add_shell c t a "500" cy = (c, none) ∧
    add_shell c t a "abcd" cy = (c, none) := by
  have h500 : pyInt (pyStrip "500") = some 500 := by decide
  have habcd : pyInt (pyStrip "abcd") = none := by decide
  refine ⟨?_, ?_, ?_, ?_⟩
  · rw [add_shell_eq]
    by_cases h1 : pyStrip t = ""
    · simp [h1]
    · by_cases h2 : pyStrip a = ""
      · simp [h1, h2]
      · rw [if_neg h1, if_neg h2]
        split
        · rename_i hp
          simp [h1, h2, hp]
        · rename_i n hp
          split
          · rename_i h3
            simp only [Option.isSome_none, Bool.false_eq_true, false_iff]
            intro hcontra
            obtain ⟨-, -, m, hm, hb1, hb2⟩ := hcontra
            rw [hp] at hm
            injection hm with he
            subst he
            omega
          · rename_i h3
            simp only [Option.isSome_some, true_iff]
            exact ⟨h1, h2, n, hp, by omega, by omega⟩
  · rw [add_shell_eq]
    by_cases h1 : pyStrip t = ""
    · rw [if_pos h1]
      intro _
      rfl
    · rw [if_neg h1]
      by_cases h2 : pyStrip a = ""
      · rw [if_pos h2]
        intro _
        rfl
      · rw [if_neg h2]
        split
        · intro _
          rfl
        · split
          · intro _
            rfl
          · intro hcontra
            simp at hcontra
  · rw [add_shell_eq]
    by_cases h1 : pyStrip t = ""
    · rw [if_pos h1]
    · rw [if_neg h1]
      by_cases h2 : pyStrip a = ""
      · rw [if_pos h2]
      · rw [if_neg h2]
        simp only [h500]
        rw [if_pos (Or.inl (by norm_num))]
  · rw [add_shell_eq]
    by_cases h1 : pyStrip t = ""
    · rw [if_pos h1]
    · rw [if_neg h1]
      by_cases h2 : pyStrip a = ""
      · rw [if_pos h2]
      · rw [if_neg h2]
        simp only [habcd]

theorem claim_c8_witness :
    (add_shell emptyCatalog "Dune" "Herbert" "abcd" 2024).1 = emptyCatalog ∧
    add_shell emptyCatalog "Dune" "Herbert" "500" 2024 = (emptyCatalog, none) :=
  ⟨(claim_c8_add_validation emptyCatalog "Dune" "Herbert" "abcd" 2024).2.1 (by decide),
   (claim_c8_add_validation emptyCatalog "Dune" "Herbert" "500" 2024).2.2.1⟩

/-- Claim C9: `search_by_title` matches case-insensitively but
otherwise exactly: an entry is in the result precisely when it is
stored and its lowercased title equals the lowercased query; in
particular a record titled "Dune" is found by "dune" but not by
"Dune " (trailing space). -/
theorem claim_c9_title_search (c : Catalog) (q k : String) (rec : BookRec) :
    ((k, rec) ∈ search_by_title c q ↔
      (k, rec) ∈ c.books ∧ pyLower rec.title = pyLower q) ∧
    (rec.title = "Dune" → (k, rec) ∈ c.books →
      ((k, rec) ∈ search_by_title c "dune" ∧
        (k, rec) ∉ search_by_title c "Dune ")) := by
  constructor
  · exact search_by_title_mem c q (k, rec)
  · intro htitle hmem
    constructor
    · rw [search_by_title_mem]
      refine ⟨hmem, ?_⟩
      rw [htitle]
      decide
    · rw [search_by_title_mem]
      intro hcontra
      have := hcontra.2
      rw [htitle] at this
      exact absurd this (by decide)

theorem claim_c9_witness :
    (pyStr 1, (⟨"Dune", "Herbert", "1965", "Available"⟩ : BookRec)) ∈
      search_by_title (add_book emptyCatalog "Dune" "Herbert" "1965").1 "dune" ∧
    (pyStr 1, (⟨"Dune", "Herbert", "1965", "Available"⟩ : BookRec)) ∉
      search_by_title (add_book emptyCatalog "Dune" "Herbert" "1965").1 "Dune " :=
  (claim_c9_title_search (add_book emptyCatalog "Dune" "Herbert" "1965").1 "dune"
    (pyStr 1) ⟨"Dune", "Herbert", "1965", "Available"⟩).2 rfl (by decide)
